import Mathlib

/-!
# PatentsView patent-id → assignee mapping: the fetch pipeline of `main.go`

A shallow embedding of `fetchAssignees` and of the dispatch loop of `main`.

* The values that `encoding/json` produces when it decodes into `interface{}` are the
  inductive type `Value`; a Go `map[string]interface{}` is an association list read with
  `List.lookup`.
* A response of `fasthttp.Do` is either a transport error or a status code together with the
  outcome of `json.Unmarshal(resp.Body(), &result)`: `none` when `Unmarshal` returns an error
  (the body is not JSON, or is JSON that is neither an object nor `null`), and otherwise the
  decoded map (the empty map for the body `null`).
* The package-level `int32` variables `totalPatents`, `processedPatents` and `rateLimit`, the
  `uint64` request counter, the rows handed to `csvWriter.Write` and the URLs handed to
  `fasthttp.Do` form the shared state `Shared`.
* One call of `fetchAssignees` is a `Worker`: its identifier, the answers its endpoint gives to
  its successive requests, and a program counter `PC`.  `fetchAssigneesStep` executes the code
  from one program point to the next; every step performs at most one access to shared state.
  `time.Sleep` and the diagnostics printed with `fmt.Printf` change no state and are not
  represented.
* `main` builds the state in which one task per identifier has been submitted, each closure
  bound to the identifier of its own loop iteration; `step i` lets task `i` run one step and
  `runSched` runs a whole schedule, so that the reachable states are the states
  `runSched (main tasks) sched`.  A task that the pool of `concurrencyLevel = 15` workers has
  not started yet is a worker that has not stepped yet, so every interleaving the pool can
  produce is such a schedule.
* Within one call of `fetchAssignees`, `csvWriter.Write` appends its record.  Across workers
  the writer is the one unsynchronised `csv.Writer` of line 127, so in the pipeline a call of
  `Write` is not a single step: a worker first enters the call and later returns from it, and
  `Sys.inWrite` lists the workers that are inside.  When a worker enters while another one is
  inside, the two calls race on the writer's buffer and `Sys.raced` is set; from then on the
  source does not determine the content of the output, and `Shared.csv` only tells which
  records have been handed to the writer.
-/

namespace PatentsView

/-! ## Data model -/

/-- A value as `encoding/json` stores it in an `interface{}`. -/
inductive Value where
  | null : Value
  | bool (b : Bool) : Value
  | number (n : Int) : Value
  | str (s : String) : Value
  | array (elems : List Value) : Value
  | object (fields : List (String × Value)) : Value

/-- A Go `map[string]interface{}`. -/
abbrev Object := List (String × Value)

/-- The outcome of `fasthttp.Do`: an error, or a status code with the outcome of decoding the
body into a `map[string]interface{}` (`none`: `json.Unmarshal` returned an error). -/
inductive Response where
  | transportError : Response
  | status (code : Nat) (body : Option Object) : Response

/-- The constant `fasthttp.StatusOK`. -/
def StatusOK : Nat := 200

/-- The constant `fasthttp.StatusTooManyRequests`. -/
def StatusTooManyRequests : Nat := 429

/-- Two's-complement wrap-around of `int32` arithmetic. -/
def wrapInt32 (x : Int) : Int := (x + 2 ^ 31) % 2 ^ 32 - 2 ^ 31

/-- The `return` or `break` through which a call of `fetchAssignees` left its loop. -/
inductive Exit where
  /-- Line 43: `fasthttp.Do` returned an error. -/
  | transportError : Exit
  /-- Line 53: the body did not decode. -/
  | parseError : Exit
  /-- Line 60: the placeholder row was written. -/
  | noAssignees : Exit
  /-- Line 86: all elements were handled. -/
  | completed : Exit
  /-- Line 93: a status other than 200 and 429. -/
  | badStatus : Exit
  deriving DecidableEq

/-- Program points of `fetchAssignees`. -/
inductive PC where
  /-- Line 37: the test of the polling loop on `rateLimit`. -/
  | awaitBudget : PC
  /-- Line 41: the call of `fasthttp.Do`. -/
  | doRequest : PC
  /-- Lines 41-46 and 87-91: the response has arrived, its status is about to be examined. -/
  | responded (r : Response) : PC
  /-- Lines 50-61: `processedPatents` has been incremented, the body is about to be decoded. -/
  | decode (body : Option Object) : PC
  /-- Lines 63-74: the elements of `assigneesData` still to be visited by the `range` loop. -/
  | writeRows (rest : List Value) : PC
  /-- Line 80: `rateLimit` has been reset, the request counter is about to be incremented. -/
  | countRequest : PC
  /-- Line 90: `rateLimit` has been set to 0, the worker sleeps 10 seconds. -/
  | throttleSleep : PC
  /-- The call has returned. -/
  | finished (e : Exit) : PC

/-- The state shared by all workers. -/
structure Shared where
  /-- Package variable `totalPatents`. -/
  totalPatents : Int
  /-- Package variable `processedPatents`. -/
  processedPatents : Int
  /-- Package variable `rateLimit`. -/
  rateLimit : Int
  /-- The `counter` of `main`. -/
  counter : Nat
  /-- The records handed to `csvWriter.Write` by the calls that have returned, oldest first.
  It is the content of the output as long as no two calls of `Write` have overlapped. -/
  csv : List (List String)
  /-- The request URLs passed to `fasthttp.Do`, oldest first. -/
  requests : List String

/-- One call of `fetchAssignees`. -/
structure Worker where
  /-- The argument `patentID`. -/
  patentID : String
  /-- What the endpoint answers to the `k`-th request of this call. -/
  endpoint : Nat → Response
  /-- The number of requests made so far. -/
  attempt : Nat
  /-- The program point the call is at. -/
  pc : PC

/-- The whole pipeline: shared state, one worker per submitted task, and the use the workers
make of the shared `csv.Writer`. -/
structure Sys where
  shared : Shared
  workers : List Worker
  /-- The workers that have entered a call of `csvWriter.Write` and not yet returned from it,
  latest first. -/
  inWrite : List Nat
  /-- Two calls of `csvWriter.Write` have overlapped. -/
  raced : Bool

/-! ## `fetchAssignees` -/

/-- Line 28: `fmt.Sprintf` with the identifier substituted for `%s`. -/
def requestURL (patentID : String) : String :=
  "https://api.patentsview.org/assignees/query?q=\x7b\"_eq\":\x7b\"patent_id\":\"" ++ patentID ++ "\"\x7d\x7d"

/-- The type assertion `v.([]interface{})` in its two-result form, applied to a map lookup. -/
def assertArray : Option Value → List Value × Bool
  | some (.array elems) => (elems, true)
  | _ => ([], false)

/-- The type assertion `v.(map[string]interface{})` in its two-result form. -/
def assertObject : Value → Object × Bool
  | .object fields => (fields, true)
  | _ => ([], false)

/-- The type assertion `v.(string)` with the `ok` result discarded, applied to a map lookup. -/
def assertString : Option Value → String
  | some (.str s) => s
  | _ => ""

/-- The call `csvWriter.Write(record)` from its entry to its return, no other call of `Write`
being under way: the record is appended to the output. -/
def Shared.write (sh : Shared) (record : List String) : Shared :=
  { sh with csv := sh.csv ++ [record] }

/-- One step of a call of `fetchAssignees`, from its program point to the next one. -/
def fetchAssigneesStep (sh : Shared) (w : Worker) : Shared × Worker :=
  match w.pc with
  | .awaitBudget =>
      if sh.rateLimit ≤ 0 then (sh, w) else (sh, { w with pc := .doRequest })
  | .doRequest =>
      ({ sh with requests := sh.requests ++ [requestURL w.patentID] },
       { w with attempt := w.attempt + 1, pc := .responded (w.endpoint w.attempt) })
  | .responded .transportError => (sh, { w with pc := .finished .transportError })
  | .responded (.status code body) =>
      if code = StatusOK then
        ({ sh with processedPatents := wrapInt32 (sh.processedPatents + 1) },
         { w with pc := .decode body })
      else if code = StatusTooManyRequests then
        ({ sh with rateLimit := 0 }, { w with pc := .throttleSleep })
      else (sh, { w with pc := .finished .badStatus })
  | .decode none => (sh, { w with pc := .finished .parseError })
  | .decode (some result) =>
      let (assigneesData, ok) := assertArray (result.lookup "assignees")
      if !ok || assigneesData.length == 0 then
        (sh.write [w.patentID, "", ""], { w with pc := .finished .noAssignees })
      else (sh, { w with pc := .writeRows assigneesData })
  | .writeRows (assignee :: rest) =>
      let (assigneeData, ok) := assertObject assignee
      if !ok then (sh, { w with pc := .writeRows rest })
      else
        let assigneeID := assertString (assigneeData.lookup "assignee_id")
        let assigneeOrg := assertString (assigneeData.lookup "assignee_organization")
        (sh.write [w.patentID, assigneeID, assigneeOrg], { w with pc := .writeRows rest })
  | .writeRows [] => ({ sh with rateLimit := 15 }, { w with pc := .countRequest })
  | .countRequest =>
      ({ sh with counter := (sh.counter + 1) % 2 ^ 64 }, { w with pc := .finished .completed })
  | .throttleSleep => (sh, { w with pc := .awaitBudget })
  | .finished _ => (sh, w)

/-- A call of `fetchAssignees` run on its own for `fuel` steps. -/
def fetchAssignees : Nat → Shared × Worker → Shared × Worker
  | 0, c => c
  | fuel + 1, c => fetchAssignees fuel (fetchAssigneesStep c.1 c.2)

/-- A call of `fetchAssignees` at its entry. -/
def Worker.start (patentID : String) (endpoint : Nat → Response) : Worker :=
  { patentID := patentID, endpoint := endpoint, attempt := 0, pc := .awaitBudget }

/-! ## `main` -/

/-- The header record written at line 128. -/
def header : List String := ["patent_id", "assignee_id", "assignee_organization"]

/-- The state `main` has built when it starts dispatching: `totalPatents` is set (line 117),
the header is written (line 128) and one task per identifier is submitted (lines 136-141).
A task is an identifier together with the behaviour of its endpoint. -/
def main (tasks : List (String × (Nat → Response))) : Sys :=
  { shared :=
      { totalPatents := wrapInt32 tasks.length
        processedPatents := 0
        rateLimit := 20
        counter := 0
        csv := [header]
        requests := [] }
    workers := tasks.map fun t => Worker.start t.1 t.2
    inWrite := []
    raced := false }

/-- The next step of the call is a call of `csvWriter.Write`: line 59, reached when
`assignees` is absent, not an array or empty, or line 73, reached for an element that is an
object. -/
def PC.callsWrite : PC → Bool
  | .decode (some result) =>
      !(assertArray (result.lookup "assignees")).2 ||
        (assertArray (result.lookup "assignees")).1.length == 0
  | .writeRows (assignee :: _) => (assertObject assignee).2
  | _ => false

/-- Worker `i` runs one step; nothing happens when there is no worker `i`.  A step of
`fetchAssignees` that calls `csvWriter.Write` takes two steps of the pipeline: in the first the
worker enters the call, which is a race when another worker is inside, and in the second it
returns from it, the step of `fetchAssignees` being done. -/
def step (i : Nat) (s : Sys) : Sys :=
  match s.workers[i]? with
  | none => s
  | some w =>
      if w.pc.callsWrite && !s.inWrite.contains i then
        { s with inWrite := i :: s.inWrite, raced := s.raced || !s.inWrite.isEmpty }
      else
        let c := fetchAssigneesStep s.shared w
        { shared := c.1, workers := s.workers.set i c.2,
          inWrite := s.inWrite.erase i, raced := s.raced }

/-- The state after the workers have stepped in the order `sched`. -/
def runSched (s : Sys) (sched : List Nat) : Sys :=
  sched.foldl (fun s i => step i s) s

/-- The data records of the output: everything after the header. -/
def dataRows (sh : Shared) : List (List String) := sh.csv.drop 1

/-! ## Specification-side definitions, step kinds and invariants -/

/-- The field value the specification assigns to a row: the string stored under `key`, and the
empty string when the key is absent or holds something that is not a string. -/
def fieldOrEmpty (fields : Object) (key : String) : String :=
  match fields.lookup key with
  | some (.str s) => s
  | _ => ""

/-- The row the specification assigns to one element of the `assignees` array: an object gives
the row of its two fields, any other element gives no row. -/
def rowOfElement (patentID : String) : Value → Option (List String)
  | .object fields =>
      some [patentID, fieldOrEmpty fields "assignee_id", fieldOrEmpty fields "assignee_organization"]
  | _ => none

/-- The array of claim C1's scenario: the string `"not-an-object"` next to one well-formed
element. -/
def c1Endpoint : Nat → Response := fun _ =>
  .status 200 (some [("assignees", .array [.str "not-an-object",
    .object [("assignee_id", .str "A1"), ("assignee_organization", .str "Org1")]])])

/-- An endpoint that answers status 200 with the body `{"assignees":[]}`. -/
def emptyEndpoint : Nat → Response := fun _ => .status 200 (some [("assignees", .array [])])

/-- The outcomes the specification calls `Failed`: a transport error, a status other than
200 and 429, or status 200 with a body that does not decode. -/
def Failed : Response → Prop
  | .transportError => True
  | .status code body =>
      (code ≠ StatusOK ∧ code ≠ StatusTooManyRequests) ∨ (code = StatusOK ∧ body = none)

/-- An endpoint that answers status 200 with a body that is not JSON. -/
def garbageEndpoint : Nat → Response := fun _ => .status 200 none

/-- An endpoint that answers status 500. -/
def brokenEndpoint : Nat → Response := fun _ => .status 500 none

/-- Worker `i` is about to execute `atomic.StoreInt32(&rateLimit, 0)` (line 89). -/
def PC.isDeplete : PC → Bool
  | .responded (.status code _) => code == StatusTooManyRequests
  | _ => false

/-- Worker `i` is about to execute `atomic.StoreInt32(&rateLimit, 15)` (line 77). -/
def PC.isRestore : PC → Bool
  | .writeRows [] => true
  | _ => false

/-- The call is between requests: it polls the budget, sleeps after a 429, or has returned. -/
def PC.isIdle : PC → Bool
  | .awaitBudget => true
  | .throttleSleep => true
  | .finished _ => true
  | _ => false

/-- The next step of worker `i` sets the budget to 0. -/
def depletes (s : Sys) (i : Nat) : Bool :=
  match s.workers[i]? with
  | some w => w.pc.isDeplete
  | none => false

/-- The next step of worker `i` sets the budget to 15. -/
def restores (s : Sys) (i : Nat) : Bool :=
  match s.workers[i]? with
  | some w => w.pc.isRestore
  | none => false

/-- No step of the schedule `sched`, run from `s`, is a restore step. -/
def noRestore : Sys → List Nat → Bool
  | _, [] => true
  | s, i :: sched => !restores s i && noRestore (step i s) sched

/-- An endpoint that answers 429 to the first request and afterwards 200 with one well-formed
assignee. -/
def throttledEndpoint : Nat → Response := fun k =>
  if k = 0 then .status 429 none
  else .status 200 (some [("assignees",
    .array [.object [("assignee_id", .str "A1"), ("assignee_organization", .str "Org1")]])])

/-- What a worker in the middle of handling a response knows about the answer to its latest
request. -/
def Handling (w : Worker) : Prop :=
  match w.pc with
  | .responded r => 0 < w.attempt ∧ w.endpoint (w.attempt - 1) = r
  | .decode body => 0 < w.attempt ∧ w.endpoint (w.attempt - 1) = .status StatusOK body
  | .writeRows _ => 0 < w.attempt ∧ ∃ result e es,
      w.endpoint (w.attempt - 1) = .status StatusOK (some result) ∧
      result.lookup "assignees" = some (.array (e :: es))
  | _ => True

/-- The states of the run over the single identifier P3 whose endpoint is
`throttledEndpoint`: only the header has been written, at most one request has been sent, and
once the 429 has been handled the budget is 0 and the worker sleeps or polls. -/
def ThrottledRun (s : Sys) : Prop :=
  s.shared.csv = [header] ∧
  ∃ attempt pc, s.workers = [⟨"P3", throttledEndpoint, attempt, pc⟩] ∧
    ((pc = .awaitBudget ∧ attempt = 0 ∧ s.shared.requests = [] ∧ s.shared.rateLimit = 20) ∨
     (pc = .doRequest ∧ attempt = 0 ∧ s.shared.requests = [] ∧ s.shared.rateLimit = 20) ∨
     (pc = .responded (.status 429 none) ∧ s.shared.requests = [requestURL "P3"] ∧
        s.shared.rateLimit = 20) ∨
     (pc = .throttleSleep ∧ s.shared.requests = [requestURL "P3"] ∧ s.shared.rateLimit = 0) ∨
     (pc = .awaitBudget ∧ s.shared.requests = [requestURL "P3"] ∧ s.shared.rateLimit = 0))

/-- The call has executed `atomic.AddInt32(&processedPatents, 1)` (line 47). -/
def PC.hasCounted : PC → Bool
  | .decode _ => true
  | .writeRows _ => true
  | .countRequest => true
  | .finished .parseError => true
  | .finished .noAssignees => true
  | .finished .completed => true
  | _ => false

/-- The next step of the call executes `atomic.AddInt32(&processedPatents, 1)` (line 47). -/
def PC.isIncrement : PC → Bool
  | .responded (.status code _) => code == StatusOK
  | _ => false

/-- The call has ended in the state the specification calls `Success`: it returned after
writing the placeholder row or after handling all elements. -/
def PC.isSuccess : PC → Bool
  | .finished .noAssignees => true
  | .finished .completed => true
  | _ => false

/-- The next step of worker `i` increments `processedPatents`. -/
def increments (s : Sys) (i : Nat) : Bool :=
  match s.workers[i]? with
  | some w => w.pc.isIncrement
  | none => false

/-- How many times worker `i` increments `processedPatents` while `sched` runs from `s`. -/
def incrementCount (i : Nat) : Sys → List Nat → Nat
  | _, [] => 0
  | s, j :: sched =>
      (if j = i ∧ increments s j = true then 1 else 0) + incrementCount i (step j s) sched

/-- The counters of a run over `n` identifiers, `n` fitting `int32`: `totalPatents` is `n`
and `processedPatents` is the number of workers that have passed line 47. -/
def Counted (n : Nat) (s : Sys) : Prop :=
  s.workers.length = n ∧ s.shared.totalPatents = n ∧
  s.shared.processedPatents = (s.workers.countP fun w => w.pc.hasCounted)

/-- The tasks of a run in which the endpoint of every identifier `id` always answers status
200 with a body that decodes to `body id`. -/
def successTasks (ids : List String) (body : String → Object) :
    List (String × (Nat → Response)) :=
  ids.map fun id => (id, fun _ => Response.status StatusOK (some (body id)))

/-- The bodies of claim C8's scenario: P1 has the one assignee (A1, Org1), every other
identifier has the empty array. -/
def scenarioBody : String → Object := fun id =>
  if id = "P1" then
    [("assignees",
      .array [.object [("assignee_id", .str "A1"), ("assignee_organization", .str "Org1")]])]
  else [("assignees", .array [])]

/-! ## Theorems -/

theorem fetchAssignees_add (m n : Nat) (c : Shared × Worker) :
    fetchAssignees (m + n) c = fetchAssignees n (fetchAssignees m c) := by
  induction m generalizing c with
  | zero => simp [fetchAssignees]
  | succ m ih => rw [Nat.succ_add]; simp only [fetchAssignees]; exact ih _

theorem assertString_eq (fields : Object) (key : String) :
    assertString (fields.lookup key) = fieldOrEmpty fields key := by
  unfold assertString fieldOrEmpty
  split <;> simp_all

/-- The `range` loop followed by the two updates after it: from the head of the loop the call
finishes in `rest.length + 2` steps, having written the rows of the remaining elements. -/
theorem fetchAssignees_writeRows (rest : List Value) (sh : Shared) (patentID : String)
    (endpoint : Nat → Response) (attempt : Nat) :
    fetchAssignees (rest.length + 2) (sh, ⟨patentID, endpoint, attempt, .writeRows rest⟩) =
      ({ sh with csv := sh.csv ++ rest.filterMap (rowOfElement patentID)
                 rateLimit := 15
                 counter := (sh.counter + 1) % 2 ^ 64 },
       ⟨patentID, endpoint, attempt, .finished .completed⟩) := by
  induction rest generalizing sh with
  | nil => simp [fetchAssignees, fetchAssigneesStep]
  | cons e rest ih =>
      rw [List.length_cons, show rest.length + 1 + 2 = (rest.length + 2) + 1 by omega]
      rw [fetchAssignees]
      cases e <;>
        simp [fetchAssigneesStep, assertObject, rowOfElement, ih, Shared.write, assertString_eq]

/-- The four steps that lead a call waiting with a positive budget, and answered with status
200 and a decodable body, to the point where the body is examined. -/
theorem fetchAssignees_to_decode (sh : Shared) (w : Worker) (body : Option Object)
    (hpc : w.pc = .awaitBudget) (hbudget : 0 < sh.rateLimit)
    (hresp : w.endpoint w.attempt = .status StatusOK body) :
    fetchAssignees 3 (sh, w) =
      ({ sh with requests := sh.requests ++ [requestURL w.patentID]
                 processedPatents := wrapInt32 (sh.processedPatents + 1) },
       ⟨w.patentID, w.endpoint, w.attempt + 1, .decode body⟩) := by
  obtain ⟨patentID, endpoint, attempt, pc⟩ := w
  simp only at hpc hresp
  subst hpc
  have h : ¬ sh.rateLimit ≤ 0 := by omega
  simp [fetchAssignees, fetchAssigneesStep, h, hresp]

/-- Claim C1: answered with status 200 and a body whose `assignees` is a non-empty array, a
call of `fetchAssignees` finishes and has appended to the output exactly one row per array
element that is an object, in array order, and no row for any other element; the row of an
object is the identifier followed by `assignee_id` and `assignee_organization`, each the
string stored under the key or the empty string when the key is absent or is not a string.
So when all `N` elements are objects exactly `N` rows are appended. -/
theorem C1_one_row_per_object (sh : Shared) (w : Worker) (result : Object)
    (e : Value) (es : List Value)
    (hpc : w.pc = .awaitBudget) (hbudget : 0 < sh.rateLimit)
    (hresp : w.endpoint w.attempt = .status StatusOK (some result))
    (harr : result.lookup "assignees" = some (.array (e :: es))) :
    (fetchAssignees ((e :: es).length + 6) (sh, w)).2.pc = .finished .completed ∧
    (fetchAssignees ((e :: es).length + 6) (sh, w)).1.csv =
      sh.csv ++ (e :: es).filterMap (rowOfElement w.patentID) ∧
    ((∀ x ∈ e :: es, ∃ fields, x = .object fields) →
      ((e :: es).filterMap (rowOfElement w.patentID)).length = (e :: es).length ∧
      (e :: es).filterMap (rowOfElement w.patentID) =
        (e :: es).map fun x => [w.patentID,
          assertString ((assertObject x).1.lookup "assignee_id"),
          assertString ((assertObject x).1.lookup "assignee_organization")]) := by
  have hrun : fetchAssignees ((e :: es).length + 6) (sh, w) =
      ({ sh with requests := sh.requests ++ [requestURL w.patentID]
                 processedPatents := wrapInt32 (sh.processedPatents + 1)
                 csv := sh.csv ++ (e :: es).filterMap (rowOfElement w.patentID)
                 rateLimit := 15
                 counter := (sh.counter + 1) % 2 ^ 64 },
       ⟨w.patentID, w.endpoint, w.attempt + 1, .finished .completed⟩) := by
    rw [show (e :: es).length + 6 = 3 + (1 + ((e :: es).length + 2)) by omega,
      fetchAssignees_add, fetchAssignees_to_decode sh w _ hpc hbudget hresp,
      fetchAssignees_add]
    have h1 : ∀ sh1 : Shared,
        fetchAssignees 1 (sh1, ⟨w.patentID, w.endpoint, w.attempt + 1, .decode (some result)⟩) =
          (sh1, ⟨w.patentID, w.endpoint, w.attempt + 1, .writeRows (e :: es)⟩) := by
      intro sh1
      simp [fetchAssignees, fetchAssigneesStep, harr, assertArray]
    rw [h1, fetchAssignees_writeRows]
  refine ⟨by rw [hrun], by rw [hrun], ?_⟩
  intro hobj
  have key : ∀ l : List Value, (∀ x ∈ l, ∃ fields, x = .object fields) →
      l.filterMap (rowOfElement w.patentID) =
        l.map fun x => [w.patentID,
          assertString ((assertObject x).1.lookup "assignee_id"),
          assertString ((assertObject x).1.lookup "assignee_organization")] := by
    intro l
    induction l with
    | nil => simp
    | cons a l ih =>
        intro h
        obtain ⟨fields, rfl⟩ := h a (List.mem_cons_self _ _)
        have := ih fun x hx => h x (List.mem_cons_of_mem _ hx)
        simp [rowOfElement, assertObject, assertString_eq, this]
  rw [key _ hobj]
  simp

theorem C1_one_row_per_object_witness :
    (fetchAssignees 8 ((main [("P1", c1Endpoint)]).shared, Worker.start "P1" c1Endpoint)).2.pc
      = .finished .completed ∧
    (fetchAssignees 8 ((main [("P1", c1Endpoint)]).shared, Worker.start "P1" c1Endpoint)).1.csv
      = [header, ["P1", "A1", "Org1"]] := by
  have h := C1_one_row_per_object (main [("P1", c1Endpoint)]).shared
    (Worker.start "P1" c1Endpoint)
    [("assignees", .array [.str "not-an-object",
      .object [("assignee_id", .str "A1"), ("assignee_organization", .str "Org1")]])]
    (.str "not-an-object")
    [.object [("assignee_id", .str "A1"), ("assignee_organization", .str "Org1")]]
    rfl (by decide) rfl rfl
  exact ⟨h.1, h.2.1⟩

/-- Claim C2: answered with status 200 and a body that decodes to an object in which
`assignees` is absent, is not an array, or is the empty array, a call of `fetchAssignees`
finishes and has appended to the output exactly one row, the identifier followed by two empty
strings. -/
theorem C2_placeholder_row (sh : Shared) (w : Worker) (result : Object)
    (hpc : w.pc = .awaitBudget) (hbudget : 0 < sh.rateLimit)
    (hresp : w.endpoint w.attempt = .status StatusOK (some result))
    (hnone : result.lookup "assignees" = none ∨
      (∃ v, result.lookup "assignees" = some v ∧ ∀ elems, v ≠ .array elems) ∨
      result.lookup "assignees" = some (.array [])) :
    (fetchAssignees 4 (sh, w)).2.pc = .finished .noAssignees ∧
    (fetchAssignees 4 (sh, w)).1.csv = sh.csv ++ [[w.patentID, "", ""]] := by
  rw [show 4 = 3 + 1 by rfl, fetchAssignees_add,
    fetchAssignees_to_decode sh w _ hpc hbudget hresp]
  rcases hnone with h | ⟨v, h, hv⟩ | h
  · simp [fetchAssignees, fetchAssigneesStep, h, assertArray, Shared.write]
  · cases v with
    | array elems => exact absurd rfl (hv elems)
    | _ => simp [fetchAssignees, fetchAssigneesStep, h, assertArray, Shared.write]
  · simp [fetchAssignees, fetchAssigneesStep, h, assertArray, Shared.write]

theorem C2_placeholder_row_witness :
    (fetchAssignees 4 ((main [("P2", emptyEndpoint)]).shared,
      Worker.start "P2" emptyEndpoint)).2.pc = .finished .noAssignees ∧
    (fetchAssignees 4 ((main [("P2", emptyEndpoint)]).shared,
      Worker.start "P2" emptyEndpoint)).1.csv = [header, ["P2", "", ""]] :=
  C2_placeholder_row (main [("P2", emptyEndpoint)]).shared (Worker.start "P2" emptyEndpoint)
    [("assignees", .array [])] rfl (by decide) rfl (Or.inr (Or.inr rfl))

/-- Claim C3 fails for a 200 response whose body does not decode: the call returns without a
row, but `processedPatents` has gone from 0 to 1. -/
theorem C3_counterexample :
    Failed (garbageEndpoint 0) ∧
    (fetchAssignees 4 ((main [("P4", garbageEndpoint)]).shared,
      Worker.start "P4" garbageEndpoint)).2.pc = .finished .parseError ∧
    (main [("P4", garbageEndpoint)]).shared.processedPatents = 0 ∧
    (fetchAssignees 4 ((main [("P4", garbageEndpoint)]).shared,
      Worker.start "P4" garbageEndpoint)).1.processedPatents = 1 := by
  refine ⟨Or.inr ⟨rfl, rfl⟩, rfl, rfl, ?_⟩
  decide

/-- Claim C3, amended: after a transport error or a status other than 200 and 429 the call
returns having written no row and with `processedPatents` unchanged; after status 200 with a
body that does not decode it returns having written no row and with `processedPatents`
incremented by one. -/
theorem C3_failed_no_row (sh : Shared) (w : Worker)
    (hpc : w.pc = .awaitBudget) (hbudget : 0 < sh.rateLimit)
    (hfail : Failed (w.endpoint w.attempt)) :
    (∃ e, (fetchAssignees 4 (sh, w)).2.pc = .finished e) ∧
    (fetchAssignees 4 (sh, w)).1.csv = sh.csv ∧
    ((∀ body, w.endpoint w.attempt ≠ .status StatusOK body) →
      (fetchAssignees 4 (sh, w)).1.processedPatents = sh.processedPatents) ∧
    (w.endpoint w.attempt = .status StatusOK none →
      (fetchAssignees 4 (sh, w)).1.processedPatents = wrapInt32 (sh.processedPatents + 1)) := by
  obtain ⟨patentID, endpoint, attempt, pc⟩ := w
  simp only at hpc hfail ⊢
  subst hpc
  have h : ¬ sh.rateLimit ≤ 0 := by omega
  cases hr : endpoint attempt with
  | transportError => simp [fetchAssignees, fetchAssigneesStep, h, hr]
  | status code body =>
      rw [hr] at hfail
      rcases hfail with ⟨h1, h2⟩ | ⟨h1, h2⟩
      · simp [fetchAssignees, fetchAssigneesStep, h, hr, h1, h2]
      · subst h1 h2
        simp [fetchAssignees, fetchAssigneesStep, h, hr]

theorem C3_failed_no_row_witness :
    (∃ e, (fetchAssignees 4 ((main [("P4", brokenEndpoint)]).shared,
      Worker.start "P4" brokenEndpoint)).2.pc = .finished e) ∧
    (fetchAssignees 4 ((main [("P4", brokenEndpoint)]).shared,
      Worker.start "P4" brokenEndpoint)).1.csv = [header] ∧
    (fetchAssignees 4 ((main [("P4", brokenEndpoint)]).shared,
      Worker.start "P4" brokenEndpoint)).1.processedPatents = 0 := by
  have h := C3_failed_no_row (main [("P4", brokenEndpoint)]).shared
    (Worker.start "P4" brokenEndpoint) rfl (by decide) (Or.inl (by decide))
  exact ⟨h.1, h.2.1, h.2.2.1 (by intro body hb; cases hb)⟩

/-- Claim C4 at its failing input: from the initial budget 20, a 200 response whose
`assignees` array is empty makes the call write the placeholder row and return at line 60;
the store of 15 at line 77 is not executed and the budget is still 20. -/
theorem C4_budget_not_restored :
    (fetchAssignees 4 ((main [("P2", emptyEndpoint)]).shared,
      Worker.start "P2" emptyEndpoint)).2.pc = .finished .noAssignees ∧
    (fetchAssignees 4 ((main [("P2", emptyEndpoint)]).shared,
      Worker.start "P2" emptyEndpoint)).1.csv = [header, ["P2", "", ""]] ∧
    (fetchAssignees 4 ((main [("P2", emptyEndpoint)]).shared,
      Worker.start "P2" emptyEndpoint)).1.rateLimit = 20 := by
  refine ⟨rfl, rfl, rfl⟩

theorem runSched_cons (s : Sys) (i : Nat) (sched : List Nat) :
    runSched s (i :: sched) = runSched (step i s) sched := rfl

/-- A property that holds in a state and is kept by every step holds after every schedule. -/
theorem runSched_invariant (P : Sys → Prop) (hstep : ∀ s i, P s → P (step i s)) :
    ∀ (sched : List Nat) (s : Sys), P s → P (runSched s sched) := by
  intro sched
  induction sched with
  | nil => intro s h; exact h
  | cons i sched ih => intro s h; exact ih _ (hstep s i h)

theorem step_none (s : Sys) (i : Nat) (h : s.workers[i]? = none) : step i s = s := by
  simp [step, h]

/-- The steps of `fetchAssignees` that `PC.callsWrite` singles out are those that call
`csvWriter.Write`: they hand one record to the writer, and every other step hands none. -/
theorem fetchAssigneesStep_csv (sh : Shared) (w : Worker) :
    (w.pc.callsWrite = true ∧ ∃ record, (fetchAssigneesStep sh w).1.csv = sh.csv ++ [record]) ∨
    (w.pc.callsWrite = false ∧ (fetchAssigneesStep sh w).1.csv = sh.csv) := by
  obtain ⟨patentID, endpoint, attempt, pc⟩ := w
  cases pc with
  | awaitBudget => simp only [fetchAssigneesStep]; split <;> simp [PC.callsWrite]
  | responded r =>
      cases r with
      | transportError => simp [fetchAssigneesStep, PC.callsWrite]
      | status code body =>
          simp only [fetchAssigneesStep]
          split
          · simp [PC.callsWrite]
          · split <;> simp [PC.callsWrite]
  | decode body =>
      cases body with
      | none => simp [fetchAssigneesStep, PC.callsWrite]
      | some result =>
          simp only [fetchAssigneesStep, PC.callsWrite]
          split <;> simp_all [Shared.write]
  | writeRows rest =>
      cases rest with
      | nil => simp [fetchAssigneesStep, PC.callsWrite]
      | cons e rest =>
          simp only [fetchAssigneesStep, PC.callsWrite]
          split <;> simp_all [Shared.write]
  | _ => simp [fetchAssigneesStep, PC.callsWrite]

/-- A step of an existing worker either enters a call of `csvWriter.Write`, which leaves the
shared state and the workers as they are, or executes a step of `fetchAssignees`. -/
theorem step_some (s : Sys) (i : Nat) (w : Worker) (h : s.workers[i]? = some w) :
    (w.pc.callsWrite = true ∧
      step i s = { s with inWrite := i :: s.inWrite, raced := s.raced || !s.inWrite.isEmpty }) ∨
    step i s = { shared := (fetchAssigneesStep s.shared w).1,
                 workers := s.workers.set i (fetchAssigneesStep s.shared w).2,
                 inWrite := s.inWrite.erase i, raced := s.raced } := by
  by_cases hc : (w.pc.callsWrite && !s.inWrite.contains i) = true
  · left
    refine ⟨?_, by simp only [step, h, hc, if_true]⟩
    simp only [Bool.and_eq_true] at hc
    exact hc.1
  · right
    simp only [step, h, hc]
    rfl

/-- A step changes the budget only by the store of 0 at line 89 or the store of 15 at
line 77. -/
theorem fetchAssigneesStep_rateLimit (sh : Shared) (w : Worker) :
    (fetchAssigneesStep sh w).1.rateLimit = sh.rateLimit ∨
    ((fetchAssigneesStep sh w).1.rateLimit = 0 ∧ w.pc.isDeplete = true) ∨
    ((fetchAssigneesStep sh w).1.rateLimit = 15 ∧ w.pc.isRestore = true) := by
  obtain ⟨patentID, endpoint, attempt, pc⟩ := w
  cases pc with
  | awaitBudget => simp only [fetchAssigneesStep]; split <;> simp
  | responded r =>
      cases r with
      | transportError => simp [fetchAssigneesStep]
      | status code body =>
          simp only [fetchAssigneesStep]
          split
          · simp
          · split
            · simp_all [PC.isDeplete]
            · simp
  | decode body =>
      cases body with
      | none => simp [fetchAssigneesStep]
      | some result => simp only [fetchAssigneesStep]; split <;> simp [Shared.write]
  | writeRows rest =>
      cases rest with
      | nil => simp [fetchAssigneesStep, PC.isRestore]
      | cons e rest => simp only [fetchAssigneesStep]; split <;> simp [Shared.write]
  | _ => simp [fetchAssigneesStep]

theorem step_rateLimit (s : Sys) (i : Nat) :
    (step i s).shared.rateLimit = s.shared.rateLimit ∨
    ((step i s).shared.rateLimit = 0 ∧ depletes s i = true) ∨
    ((step i s).shared.rateLimit = 15 ∧ restores s i = true) := by
  cases h : s.workers[i]? with
  | none => simp [step_none s i h]
  | some w =>
      rcases step_some s i w h with ⟨_, he⟩ | he
      · rw [he]; exact Or.inl rfl
      · rw [he]
        simpa [depletes, restores, h] using fetchAssigneesStep_rateLimit s.shared w

theorem step_depletes (s : Sys) (i : Nat) (h : depletes s i = true) :
    (step i s).shared.rateLimit = 0 := by
  unfold depletes at h
  cases hw : s.workers[i]? with
  | none => simp [hw] at h
  | some w =>
      rw [hw] at h
      obtain ⟨patentID, endpoint, attempt, pc⟩ := w
      cases pc with
      | responded r =>
          cases r with
          | transportError => simp [PC.isDeplete] at h
          | status code body =>
              rcases step_some s i _ hw with ⟨hc, _⟩ | he
              · simp [PC.callsWrite] at hc
              · rw [he]
                simp [PC.isDeplete] at h
                simp [fetchAssigneesStep, h, StatusOK, StatusTooManyRequests]
      | _ => simp [PC.isDeplete] at h

theorem rateLimit_nonneg (sched : List Nat) (s : Sys) (h : 0 ≤ s.shared.rateLimit) :
    0 ≤ (runSched s sched).shared.rateLimit := by
  refine runSched_invariant (fun s => 0 ≤ s.shared.rateLimit) ?_ sched s h
  intro s i hs
  rcases step_rateLimit s i with h | ⟨h, _⟩ | ⟨h, _⟩ <;> simp only at hs ⊢ <;> omega

theorem rateLimit_zero_until_restore (sched : List Nat) (s : Sys)
    (h : s.shared.rateLimit = 0) (hno : noRestore s sched = true) :
    (runSched s sched).shared.rateLimit = 0 := by
  induction sched generalizing s with
  | nil => exact h
  | cons i sched ih =>
      simp only [noRestore, Bool.and_eq_true, Bool.not_eq_true'] at hno
      rw [runSched_cons]
      refine ih _ ?_ hno.2
      rcases step_rateLimit s i with h1 | ⟨h1, _⟩ | ⟨_, h1⟩
      · omega
      · exact h1
      · rw [hno.1] at h1; cases h1

/-- Claim C7: in every state reachable from the initial budget 20, under any interleaving,
the budget is not negative; and after a step that depletes it (the handling of a 429) the
budget is 0 in every state that follows, as long as no restore step has been taken. -/
theorem C7_budget_nonneg_and_zero_until_restore
    (tasks : List (String × (Nat → Response))) (sched : List Nat) :
    0 ≤ (runSched (main tasks) sched).shared.rateLimit ∧
    ∀ (i : Nat) (later : List Nat),
      depletes (runSched (main tasks) sched) i = true →
      noRestore (step i (runSched (main tasks) sched)) later = true →
      (runSched (step i (runSched (main tasks) sched)) later).shared.rateLimit = 0 := by
  refine ⟨rateLimit_nonneg sched _ (by simp [main]), ?_⟩
  intro i later hd hno
  exact rateLimit_zero_until_restore later _ (step_depletes _ i hd) hno

theorem C7_budget_nonneg_and_zero_until_restore_witness :
    0 ≤ (runSched (main [("P3", throttledEndpoint)]) [0, 0]).shared.rateLimit ∧
    (runSched (step 0 (runSched (main [("P3", throttledEndpoint)]) [0, 0]))
      [0, 0, 0]).shared.rateLimit = 0 :=
  ⟨(C7_budget_nonneg_and_zero_until_restore [("P3", throttledEndpoint)] [0, 0]).1,
   (C7_budget_nonneg_and_zero_until_restore [("P3", throttledEndpoint)] [0, 0]).2 0 [0, 0, 0]
     (by decide) (by decide)⟩

theorem fetchAssigneesStep_handling (sh : Shared) (w : Worker) (h : Handling w) :
    Handling (fetchAssigneesStep sh w).2 := by
  obtain ⟨patentID, endpoint, attempt, pc⟩ := w
  cases pc with
  | awaitBudget => simp only [fetchAssigneesStep]; split <;> simp [Handling]
  | doRequest => simp [fetchAssigneesStep, Handling]
  | responded r =>
      cases r with
      | transportError => simp [fetchAssigneesStep, Handling]
      | status code body =>
          simp only [Handling] at h
          simp only [fetchAssigneesStep]
          split
          · rename_i hc; subst hc; exact h
          · split <;> simp [Handling]
  | decode body =>
      cases body with
      | none => simp [fetchAssigneesStep, Handling]
      | some result =>
          simp only [Handling] at h
          simp only [fetchAssigneesStep]
          cases hl : result.lookup "assignees" with
          | none => simp [assertArray, Handling]
          | some v =>
              cases v with
              | array elems =>
                  cases elems with
                  | nil => simp [assertArray, Handling]
                  | cons e es =>
                      simp only [assertArray, Handling]
                      exact ⟨h.1, result, e, es, h.2, hl⟩
              | _ => simp [assertArray, Handling]
  | writeRows rest =>
      cases rest with
      | nil => simp [fetchAssigneesStep, Handling]
      | cons e rest =>
          simp only [Handling] at h
          simp only [fetchAssigneesStep]; split <;> exact h
  | countRequest => simp [fetchAssigneesStep, Handling]
  | throttleSleep => simp [fetchAssigneesStep, Handling]
  | finished e => simpa [fetchAssigneesStep] using h

theorem handling_reachable (tasks : List (String × (Nat → Response))) (sched : List Nat) :
    ∀ w ∈ (runSched (main tasks) sched).workers, Handling w := by
  refine runSched_invariant (fun s => ∀ w ∈ s.workers, Handling w) ?_ sched (main tasks) ?_
  · intro s i hs
    cases hw : s.workers[i]? with
    | none => rw [step_none s i hw]; exact hs
    | some w =>
        rcases step_some s i w hw with ⟨_, he⟩ | he
        · rw [he]; exact hs
        · rw [he]
          intro w' hw'
          rcases List.mem_or_eq_of_mem_set hw' with h | h
          · exact hs w' h
          · rw [h]
            exact fetchAssigneesStep_handling _ _ (hs w (List.mem_iff_getElem?.2 ⟨i, hw⟩))
  · intro w hw
    simp only [main, List.mem_map] at hw
    obtain ⟨t, _, rfl⟩ := hw
    simp [Handling, Worker.start]

/-- A request is sent only from the program point of line 41, and that point is entered only
from the polling loop by a read of a positive budget. -/
theorem fetchAssigneesStep_request (sh : Shared) (w : Worker) :
    ((fetchAssigneesStep sh w).1.requests ≠ sh.requests → w.pc = .doRequest) ∧
    ((fetchAssigneesStep sh w).2.pc = .doRequest → w.pc ≠ .doRequest →
      w.pc = .awaitBudget ∧ 0 < sh.rateLimit) := by
  obtain ⟨patentID, endpoint, attempt, pc⟩ := w
  cases pc with
  | awaitBudget =>
      simp only [fetchAssigneesStep]
      split
      · simp
      · rename_i h; simp; omega
  | responded r =>
      cases r with
      | transportError => simp [fetchAssigneesStep]
      | status code body =>
          simp only [fetchAssigneesStep]
          split
          · simp
          · split <;> simp
  | decode body =>
      cases body with
      | none => simp [fetchAssigneesStep]
      | some result => simp only [fetchAssigneesStep]; split <;> simp [Shared.write]
  | writeRows rest =>
      cases rest with
      | nil => simp [fetchAssigneesStep]
      | cons e rest => simp only [fetchAssigneesStep]; split <;> simp [Shared.write]
  | _ => simp [fetchAssigneesStep]

/-- With budget 0, a step of an idle worker changes nothing in the shared state and leaves
the worker idle. -/
theorem fetchAssigneesStep_idle (sh : Shared) (w : Worker) (h0 : sh.rateLimit = 0)
    (hidle : w.pc.isIdle = true) :
    (fetchAssigneesStep sh w).1 = sh ∧ (fetchAssigneesStep sh w).2.pc.isIdle = true := by
  obtain ⟨patentID, endpoint, attempt, pc⟩ := w
  cases pc with
  | awaitBudget => simp [fetchAssigneesStep, h0, PC.isIdle]
  | throttleSleep => simp [fetchAssigneesStep, PC.isIdle]
  | finished e => simp [fetchAssigneesStep, PC.isIdle]
  | _ => simp [PC.isIdle] at hidle

theorem quiescent_forever (sched : List Nat) (s : Sys) (h0 : s.shared.rateLimit = 0)
    (hidle : ∀ w ∈ s.workers, w.pc.isIdle = true) :
    (runSched s sched).shared = s.shared ∧
    ∀ w ∈ (runSched s sched).workers, w.pc.isIdle = true := by
  induction sched generalizing s with
  | nil => exact ⟨rfl, hidle⟩
  | cons i sched ih =>
      rw [runSched_cons]
      cases hw : s.workers[i]? with
      | none => rw [step_none s i hw]; exact ih s h0 hidle
      | some w =>
          have hstep := fetchAssigneesStep_idle s.shared w h0
            (hidle w (List.mem_iff_getElem?.2 ⟨i, hw⟩))
          have hsh : (step i s).shared = s.shared := by
            rcases step_some s i w hw with ⟨_, he⟩ | he
            · rw [he]
            · rw [he]; exact hstep.1
          have := ih (step i s) (by rw [hsh]; exact h0) (by
            rcases step_some s i w hw with ⟨_, he⟩ | he
            · rw [he]; exact hidle
            · rw [he]
              intro w' hw'
              rcases List.mem_or_eq_of_mem_set hw' with h | h
              · exact hidle w' h
              · rw [h]; exact hstep.2)
          rw [hsh] at this
          exact this

/-- Claim C10: the budget is raised above 0 only by a worker that handles a 200 response with
a non-empty `assignees` array; a request is sent only from line 41, which a worker reaches only
by reading a positive budget in the polling loop; so from a state with budget 0 in which every
worker polls, sleeps or has returned, no request is sent and no row is written any more, and
the budget is 0 in every later state. -/
theorem C10_depleted_budget_stays_zero
    (tasks : List (String × (Nat → Response))) (sched : List Nat)
    (s : Sys) (h0 : s.shared.rateLimit = 0) (hidle : ∀ w ∈ s.workers, w.pc.isIdle = true) :
    (∀ i, (runSched (main tasks) sched).shared.rateLimit ≤ 0 →
      0 < (step i (runSched (main tasks) sched)).shared.rateLimit →
      ∃ w result e es, (runSched (main tasks) sched).workers[i]? = some w ∧
        w.pc = .writeRows [] ∧ 0 < w.attempt ∧
        w.endpoint (w.attempt - 1) = .status StatusOK (some result) ∧
        result.lookup "assignees" = some (.array (e :: es))) ∧
    (∀ (sh : Shared) (w : Worker),
      ((fetchAssigneesStep sh w).1.requests ≠ sh.requests → w.pc = .doRequest) ∧
      ((fetchAssigneesStep sh w).2.pc = .doRequest → w.pc ≠ .doRequest →
        w.pc = .awaitBudget ∧ 0 < sh.rateLimit)) ∧
    ∀ later, (runSched s later).shared.requests = s.shared.requests ∧
      (runSched s later).shared.csv = s.shared.csv ∧
      (runSched s later).shared.rateLimit = 0 ∧
      ∀ w ∈ (runSched s later).workers, w.pc.isIdle = true := by
  refine ⟨?_, fetchAssigneesStep_request, ?_⟩
  · intro i hle hlt
    rcases step_rateLimit (runSched (main tasks) sched) i with h | ⟨h, _⟩ | ⟨_, h⟩
    · omega
    · omega
    · unfold restores at h
      cases hw : (runSched (main tasks) sched).workers[i]? with
      | none => simp [hw] at h
      | some w =>
          rw [hw] at h
          have hh := handling_reachable tasks sched w (List.mem_iff_getElem?.2 ⟨i, hw⟩)
          obtain ⟨patentID, endpoint, attempt, pc⟩ := w
          cases pc with
          | writeRows rest =>
              cases rest with
              | nil =>
                  obtain ⟨h1, result, e, es, h2, h3⟩ := hh
                  exact ⟨_, result, e, es, rfl, rfl, h1, h2, h3⟩
              | cons e rest => simp [PC.isRestore] at h
          | _ => simp [PC.isRestore] at h
  · intro later
    have h := quiescent_forever later s h0 hidle
    rw [h.1]
    exact ⟨rfl, rfl, h0, h.2⟩

theorem C10_depleted_budget_stays_zero_witness :
    (runSched (main [("P3", throttledEndpoint)]) [0, 0, 0]).shared.rateLimit = 0 ∧
    (runSched (runSched (main [("P3", throttledEndpoint)]) [0, 0, 0])
      [0, 0, 0, 0, 0]).shared.requests = [requestURL "P3"] ∧
    (runSched (runSched (main [("P3", throttledEndpoint)]) [0, 0, 0])
      [0, 0, 0, 0, 0]).shared.csv = [header] ∧
    (runSched (runSched (main [("P3", throttledEndpoint)]) [0, 0, 0])
      [0, 0, 0, 0, 0]).shared.rateLimit = 0 := by
  have h := (C10_depleted_budget_stays_zero [("P3", throttledEndpoint)] []
    (runSched (main [("P3", throttledEndpoint)]) [0, 0, 0]) rfl
    (by decide)).2.2 [0, 0, 0, 0, 0]
  exact ⟨rfl, h.1, h.2.1, h.2.2.1⟩

theorem throttledRun_step (s : Sys) (i : Nat) (h : ThrottledRun s) : ThrottledRun (step i s) := by
  obtain ⟨hcsv, attempt, pc, hw, hpc⟩ := h
  cases i with
  | succ i => rw [step_none s _ (by simp [hw])]; exact ⟨hcsv, attempt, pc, hw, hpc⟩
  | zero =>
      rcases step_some s 0 _ (show s.workers[0]? = some _ by rw [hw]; rfl) with ⟨_, he⟩ | he
      · rw [he]; exact ⟨hcsv, attempt, pc, hw, hpc⟩
      rw [he]
      rcases hpc with ⟨rfl, rfl, h1, h2⟩ | ⟨rfl, rfl, h1, h2⟩ | ⟨rfl, h1, h2⟩ | ⟨rfl, h1, h2⟩ |
        ⟨rfl, h1, h2⟩
      · refine ⟨by simp [fetchAssigneesStep, h2, hcsv], 0, .doRequest, ?_, ?_⟩
        · simp [fetchAssigneesStep, h2, hw]
        · simp [fetchAssigneesStep, h2, h1]
      · refine ⟨by simp [fetchAssigneesStep, hcsv], 1, .responded (.status 429 none), ?_, ?_⟩
        · simp [fetchAssigneesStep, hw, throttledEndpoint]
        · simp [fetchAssigneesStep, h1, h2]
      · refine ⟨by simp [fetchAssigneesStep, hcsv, StatusOK, StatusTooManyRequests],
          attempt, .throttleSleep, ?_, ?_⟩
        · simp [fetchAssigneesStep, hw, StatusOK, StatusTooManyRequests]
        · simp [fetchAssigneesStep, h1, StatusOK, StatusTooManyRequests]
      · refine ⟨by simp [fetchAssigneesStep, hcsv], attempt, .awaitBudget, ?_, ?_⟩
        · simp [fetchAssigneesStep, hw]
        · simp [fetchAssigneesStep, h1, h2]
      · refine ⟨by simp [fetchAssigneesStep, hcsv, h2], attempt, .awaitBudget, ?_, ?_⟩
        · simp [fetchAssigneesStep, hw, h2]
        · simp [fetchAssigneesStep, h1, h2]

/-- In the run over the single identifier P3 no call of `csvWriter.Write` is ever entered. -/
theorem throttledRun_noWrite (s : Sys) (i : Nat) (h : ThrottledRun s)
    (hq : s.inWrite = [] ∧ s.raced = false) :
    (step i s).inWrite = [] ∧ (step i s).raced = false := by
  obtain ⟨_, attempt, pc, hw, hpc⟩ := h
  cases i with
  | succ i => rw [step_none s _ (by simp [hw])]; exact hq
  | zero =>
      rcases step_some s 0 _ (show s.workers[0]? = some _ by rw [hw]; rfl) with ⟨hc, _⟩ | he
      · rcases hpc with ⟨rfl, _⟩ | ⟨rfl, _⟩ | ⟨rfl, _⟩ | ⟨rfl, _⟩ | ⟨rfl, _⟩ <;>
          simp [PC.callsWrite] at hc
      · rw [he]
        simp [hq.1, hq.2]

/-- Claim C5 at its failing input, the run over the single identifier P3 whose endpoint
answers 429 and then 200 with one assignee: once the 429 has been handled the budget is 0 and
one request has been sent; and whatever the steps taken, no data row is written, no second
request is sent, the worker never returns and the budget is never the replenishment value
15.  No call of `csvWriter.Write` is entered, so the output is the header alone. -/
theorem C5_retry_never_sent (sched : List Nat) :
    (runSched (main [("P3", throttledEndpoint)]) [0, 0, 0, 0]).shared.rateLimit = 0 ∧
    (runSched (main [("P3", throttledEndpoint)]) [0, 0, 0, 0]).shared.requests
      = [requestURL "P3"] ∧
    dataRows (runSched (main [("P3", throttledEndpoint)]) sched).shared = [] ∧
    (runSched (main [("P3", throttledEndpoint)]) sched).shared.requests.length ≤ 1 ∧
    (∀ w ∈ (runSched (main [("P3", throttledEndpoint)]) sched).workers,
      ∀ e, w.pc ≠ .finished e) ∧
    (runSched (main [("P3", throttledEndpoint)]) sched).shared.rateLimit ≠ 15 ∧
    (runSched (main [("P3", throttledEndpoint)]) sched).inWrite = [] ∧
    (runSched (main [("P3", throttledEndpoint)]) sched).raced = false := by
  have h := runSched_invariant
    (fun s => ThrottledRun s ∧ s.inWrite = [] ∧ s.raced = false)
    (fun s i hs => ⟨throttledRun_step s i hs.1, throttledRun_noWrite s i hs.1 hs.2⟩) sched
    (main [("P3", throttledEndpoint)])
    ⟨⟨rfl, 0, .awaitBudget, rfl, Or.inl ⟨rfl, rfl, rfl, rfl⟩⟩, rfl, rfl⟩
  obtain ⟨⟨hcsv, attempt, pc, hw, hpc⟩, hin, hraced⟩ := h
  refine ⟨rfl, rfl, by simp [dataRows, hcsv], ?_, ?_, ?_, hin, hraced⟩
  · rcases hpc with ⟨_, _, h1, _⟩ | ⟨_, _, h1, _⟩ | ⟨_, h1, _⟩ | ⟨_, h1, _⟩ | ⟨_, h1, _⟩ <;>
      simp [h1]
  · intro w hmem e
    rw [hw] at hmem
    simp only [List.mem_singleton] at hmem
    subst hmem
    rcases hpc with ⟨h1, _⟩ | ⟨h1, _⟩ | ⟨h1, _⟩ | ⟨h1, _⟩ | ⟨h1, _⟩ <;> simp [h1]
  · rcases hpc with ⟨_, _, _, h1⟩ | ⟨_, _, _, h1⟩ | ⟨_, _, h1⟩ | ⟨_, _, h1⟩ | ⟨_, _, h1⟩ <;>
      omega

theorem set_decompose {α : Type} (l : List α) (i : Nat) (a : α) (h : l[i]? = some a) :
    ∃ l₁ l₂, l = l₁ ++ a :: l₂ ∧ ∀ b, l.set i b = l₁ ++ b :: l₂ := by
  obtain ⟨hi, ha⟩ := List.getElem?_eq_some.1 h
  refine ⟨l.take i, l.drop (i + 1), ?_, ?_⟩
  · rw [← ha, List.getElem_cons_drop, List.take_append_drop]
  · intro b
    rw [List.set_eq_take_append_cons_drop, if_pos hi]

/-- A step either executes the increment of line 47, from a point before it to a point after
it, or leaves `processedPatents` and the side of line 47 the call is on as they are. -/
theorem fetchAssigneesStep_counted (sh : Shared) (w : Worker) :
    (w.pc.isIncrement = true ∧ w.pc.hasCounted = false ∧
      (fetchAssigneesStep sh w).2.pc.hasCounted = true ∧
      (fetchAssigneesStep sh w).1.processedPatents = wrapInt32 (sh.processedPatents + 1)) ∨
    (w.pc.isIncrement = false ∧
      (fetchAssigneesStep sh w).2.pc.hasCounted = w.pc.hasCounted ∧
      (fetchAssigneesStep sh w).1.processedPatents = sh.processedPatents) := by
  obtain ⟨patentID, endpoint, attempt, pc⟩ := w
  cases pc with
  | awaitBudget => simp only [fetchAssigneesStep]; split <;> simp [PC.isIncrement, PC.hasCounted]
  | responded r =>
      cases r with
      | transportError => simp [fetchAssigneesStep, PC.isIncrement, PC.hasCounted]
      | status code body =>
          simp only [fetchAssigneesStep]
          split
          · simp_all [PC.isIncrement, PC.hasCounted]
          · split <;> simp_all [PC.isIncrement, PC.hasCounted]
  | decode body =>
      cases body with
      | none => simp [fetchAssigneesStep, PC.isIncrement, PC.hasCounted]
      | some result =>
          simp only [fetchAssigneesStep]
          split <;> simp [Shared.write, PC.isIncrement, PC.hasCounted]
  | writeRows rest =>
      cases rest with
      | nil => simp [fetchAssigneesStep, PC.isIncrement, PC.hasCounted]
      | cons e rest =>
          simp only [fetchAssigneesStep]
          split <;> simp [Shared.write, PC.isIncrement, PC.hasCounted]
  | _ => simp [fetchAssigneesStep, PC.isIncrement, PC.hasCounted]

theorem wrapInt32_of_fits (x : Int) (h0 : 0 ≤ x) (h1 : x < 2 ^ 31) : wrapInt32 x = x := by
  unfold wrapInt32
  norm_num at h1 ⊢
  omega

theorem fits_of_wrapInt32 (n : Nat) (h : wrapInt32 n = n) : n < 2 ^ 31 := by
  unfold wrapInt32 at h
  norm_num at h ⊢
  omega

theorem fetchAssigneesStep_totalPatents (sh : Shared) (w : Worker) :
    (fetchAssigneesStep sh w).1.totalPatents = sh.totalPatents := by
  obtain ⟨patentID, endpoint, attempt, pc⟩ := w
  cases pc with
  | awaitBudget => simp only [fetchAssigneesStep]; split <;> simp
  | responded r =>
      cases r with
      | transportError => simp [fetchAssigneesStep]
      | status code body =>
          simp only [fetchAssigneesStep]
          split
          · simp
          · split <;> simp
  | decode body =>
      cases body with
      | none => simp [fetchAssigneesStep]
      | some result => simp only [fetchAssigneesStep]; split <;> simp [Shared.write]
  | writeRows rest =>
      cases rest with
      | nil => simp [fetchAssigneesStep]
      | cons e rest => simp only [fetchAssigneesStep]; split <;> simp [Shared.write]
  | _ => simp [fetchAssigneesStep]

theorem counted_step (n : Nat) (hn : n < 2 ^ 31) (s : Sys) (i : Nat) (h : Counted n s) :
    Counted n (step i s) := by
  obtain ⟨hlen, htot, hproc⟩ := h
  cases hw : s.workers[i]? with
  | none => rw [step_none s i hw]; exact ⟨hlen, htot, hproc⟩
  | some w =>
      rcases step_some s i w hw with ⟨_, he⟩ | he
      · rw [he]; exact ⟨hlen, htot, hproc⟩
      rw [he]
      obtain ⟨l₁, l₂, hl, hset⟩ := set_decompose s.workers i w hw
      refine ⟨by simp [hlen], by simp [fetchAssigneesStep_totalPatents, htot], ?_⟩
      simp only [hset]
      rw [hl] at hproc hlen
      simp only [List.countP_append, List.countP_cons, List.length_append,
        List.length_cons] at hproc hlen ⊢
      have hb1 : List.countP (fun w : Worker => w.pc.hasCounted) l₁ ≤ l₁.length :=
        List.countP_le_length _
      have hb2 : List.countP (fun w : Worker => w.pc.hasCounted) l₂ ≤ l₂.length :=
        List.countP_le_length _
      generalize List.countP (fun w : Worker => w.pc.hasCounted) l₁ = a at hproc hb1 ⊢
      generalize List.countP (fun w : Worker => w.pc.hasCounted) l₂ = b at hproc hb2 ⊢
      rcases fetchAssigneesStep_counted s.shared w with ⟨_, h2, h3, h4⟩ | ⟨_, h2, h3⟩
      · rw [h4, hproc]
        simp only [h2, h3] at hproc ⊢
        rw [wrapInt32_of_fits]
        · simp; omega
        · omega
        · norm_num at hn ⊢
          omega
      · rw [h3, hproc, h2]

theorem counted_reachable (tasks : List (String × (Nat → Response)))
    (htotal : (main tasks).shared.totalPatents = tasks.length) (sched : List Nat) :
    Counted tasks.length (runSched (main tasks) sched) := by
  have hn : tasks.length < 2 ^ 31 := fits_of_wrapInt32 _ htotal
  refine runSched_invariant (Counted tasks.length) (counted_step _ hn) sched _ ⟨?_, htotal, ?_⟩
  · simp [main]
  · simp [main, List.countP_map, Function.comp_def, Worker.start, PC.hasCounted]

theorem step_getElem?_self (s : Sys) (i : Nat) (w : Worker) (h : s.workers[i]? = some w) :
    (w.pc.callsWrite = true ∧ (step i s).workers[i]? = some w) ∨
    (step i s).workers[i]? = some (fetchAssigneesStep s.shared w).2 := by
  rcases step_some s i w h with ⟨hc, he⟩ | he
  · left; rw [he]; exact ⟨hc, h⟩
  · right
    rw [he]
    obtain ⟨hi, _⟩ := List.getElem?_eq_some.1 h
    simp [List.getElem?_set_self hi]

theorem isIncrement_of_callsWrite (pc : PC) (h : pc.callsWrite = true) :
    pc.isIncrement = false := by
  cases pc <;> simp_all [PC.callsWrite, PC.isIncrement]

theorem step_getElem?_ne (s : Sys) (i j : Nat) (hne : j ≠ i) :
    (step j s).workers[i]? = s.workers[i]? := by
  cases hw : s.workers[j]? with
  | none => rw [step_none s j hw]
  | some w =>
      rcases step_some s j w hw with ⟨_, he⟩ | he
      · rw [he]
      · rw [he]; simp [List.getElem?_set_ne hne]

/-- Worker `i` increments `processedPatents` during a schedule exactly when it passes line 47
during that schedule. -/
theorem incrementCount_eq (i : Nat) (sched : List Nat) (s : Sys) (w : Worker)
    (h : s.workers[i]? = some w) :
    ∃ w', (runSched s sched).workers[i]? = some w' ∧
      incrementCount i s sched + (if w.pc.hasCounted = true then 1 else 0) =
        if w'.pc.hasCounted = true then 1 else 0 := by
  induction sched generalizing s w with
  | nil => exact ⟨w, h, by simp [incrementCount]⟩
  | cons j sched ih =>
      rw [runSched_cons]
      by_cases hj : j = i
      · subst hj
        rcases step_getElem?_self s j w h with ⟨hcw, hsame⟩ | hexec
        · obtain ⟨w', hw', hc⟩ := ih (step j s) w hsame
          refine ⟨w', hw', ?_⟩
          simp only [incrementCount, increments, h, true_and,
            isIncrement_of_callsWrite _ hcw]
          simp at hc ⊢
          omega
        obtain ⟨w', hw', hc⟩ := ih (step j s) _ hexec
        refine ⟨w', hw', ?_⟩
        simp only [incrementCount, increments, h, true_and]
        rcases fetchAssigneesStep_counted s.shared w with ⟨h1, h2, h3, _⟩ | ⟨h1, h2, _⟩
        · simp only [h3, if_true] at hc
          simp only [h1, h2, if_true]
          simp at hc ⊢
          omega
        · rw [h2] at hc
          simp only [h1]
          simp at hc ⊢
          omega
      · obtain ⟨w', hw', hc⟩ := ih (step j s) w (by rw [step_getElem?_ne s i j hj]; exact h)
        refine ⟨w', hw', ?_⟩
        simp only [incrementCount, hj, false_and, if_false]
        omega

theorem hasCounted_of_isSuccess (pc : PC) (h : pc.isSuccess = true) : pc.hasCounted = true := by
  cases pc with
  | finished e => cases e <;> simp_all [PC.isSuccess, PC.hasCounted]
  | _ => simp [PC.isSuccess] at h

/-- Claim C6: in a run with one worker per identifier in which `totalPatents` is the number of
identifiers, in every reachable state `processedPatents` is at most `totalPatents`; when every
worker has ended in success the two are equal; and a worker that has ended in success has
incremented `processedPatents` exactly once, whatever the rows it wrote. -/
theorem C6_processed_le_total (tasks : List (String × (Nat → Response)))
    (htotal : (main tasks).shared.totalPatents = tasks.length) (sched : List Nat) :
    (runSched (main tasks) sched).shared.processedPatents ≤
      (runSched (main tasks) sched).shared.totalPatents ∧
    ((∀ w ∈ (runSched (main tasks) sched).workers, w.pc.isSuccess = true) →
      (runSched (main tasks) sched).shared.processedPatents =
        (runSched (main tasks) sched).shared.totalPatents) ∧
    ∀ i w, (runSched (main tasks) sched).workers[i]? = some w → w.pc.isSuccess = true →
      incrementCount i (main tasks) sched = 1 := by
  obtain ⟨hlen, htot, hproc⟩ := counted_reachable tasks htotal sched
  refine ⟨?_, ?_, ?_⟩
  · rw [htot, hproc, ← hlen]
    exact_mod_cast List.countP_le_length _
  · intro hall
    rw [htot, hproc, ← hlen]
    have : List.countP (fun w : Worker => w.pc.hasCounted) (runSched (main tasks) sched).workers
        = (runSched (main tasks) sched).workers.length :=
      List.countP_eq_length.2 fun w hw => hasCounted_of_isSuccess _ (hall w hw)
    rw [this]
  · intro i w hw hs
    have hi : i < tasks.length := by
      rw [← hlen]; exact (List.getElem?_eq_some.1 hw).1
    obtain ⟨w', hw', hc⟩ := incrementCount_eq i sched (main tasks)
      (Worker.start tasks[i].1 tasks[i].2) (by simp [main, hi])
    rw [hw] at hw'
    cases hw'
    have h0 : (Worker.start tasks[i].1 tasks[i].2).pc.hasCounted = false := rfl
    rw [h0, hasCounted_of_isSuccess _ hs] at hc
    simpa using hc

theorem C6_processed_le_total_witness :
    (runSched (main [("P1", c1Endpoint), ("P2", emptyEndpoint)])
      [0, 1, 0, 1, 0, 1, 0, 1, 0, 0, 0, 0, 0, 1]).shared.processedPatents = 2 ∧
    (runSched (main [("P1", c1Endpoint), ("P2", emptyEndpoint)])
      [0, 1, 0, 1, 0, 1, 0, 1, 0, 0, 0, 0, 0, 1]).shared.totalPatents = 2 ∧
    incrementCount 0 (main [("P1", c1Endpoint), ("P2", emptyEndpoint)])
      [0, 1, 0, 1, 0, 1, 0, 1, 0, 0, 0, 0, 0, 1] = 1 := by
  have h := C6_processed_le_total [("P1", c1Endpoint), ("P2", emptyEndpoint)] (by decide)
    [0, 1, 0, 1, 0, 1, 0, 1, 0, 0, 0, 0, 0, 1]
  refine ⟨?_, by decide, h.2.2 0 ⟨"P1", c1Endpoint, 1, .finished .completed⟩ rfl rfl⟩
  rw [h.2.1 (by decide)]
  decide

/-- Claim C8 at its failing input, the run over P1 and P2 of the claim's scenario: when the
worker of P1 has entered `csvWriter.Write` at line 73 and the worker of P2 then enters it at
line 59, both are inside the one unsynchronised writer, a race after which the source does
not determine the rows in the output.  When the two workers run one after the other no calls
overlap and the rows are those the claim names. -/
theorem C8_concurrent_writes_race :
    (runSched (main (successTasks ["P1", "P2"] scenarioBody))
      [0, 0, 0, 0, 0, 1, 1, 1, 1]).inWrite = [1, 0] ∧
    (runSched (main (successTasks ["P1", "P2"] scenarioBody))
      [0, 0, 0, 0, 0, 1, 1, 1, 1]).workers.map (fun w => w.pc.callsWrite) = [true, true] ∧
    (runSched (main (successTasks ["P1", "P2"] scenarioBody))
      [0, 0, 0, 0, 0, 1, 1, 1, 1]).raced = true ∧
    (runSched (main (successTasks ["P1", "P2"] scenarioBody))
      [0, 0, 0, 0, 0, 0, 0, 0, 1, 1, 1, 1, 1]).raced = false ∧
    dataRows (runSched (main (successTasks ["P1", "P2"] scenarioBody))
      [0, 0, 0, 0, 0, 0, 0, 0, 1, 1, 1, 1, 1]).shared =
        [["P1", "A1", "Org1"], ["P2", "", ""]] := by
  refine ⟨by decide, by decide, by decide, by decide, by decide⟩

end PatentsView
